import Mathlib

/-!
# Verification of the daily-tool-updates core

Shallow embedding of the two core components of the repository:

* the tool extractor (`src/commands/parse.ts`): `extractTools`, `finalizeTool`,
  `detectCategory`, `slugify`, `extractNews`;
* the scoring engine (`src/commands/score.ts`): `scoreTool` and the four
  dimension scorers.

Modelling conventions:

* JS strings are Lean `String`s; most of the line/regex machinery works on
  `List Char` (`String.data`).  `String.prototype.toLowerCase` is modelled for
  the ASCII range (`jsToLower`), which is exact on every string the program's
  patterns compare.
* The regexes of the source are hand-compiled into explicit matching functions
  that implement the exact backtracking behaviour of the JS engine for each
  pattern (greedy/lazy quantifiers, optional groups, first-match scanning).
  Each matcher carries the regex it implements in a comment.
* `new Date().toISOString()` / `Date.now()` are modelled by explicit clock
  parameters (`nowIso : String`, `nowMs : Int`); `new Date(isoString)` applied
  to the enrichment data's date fields is modelled by storing those fields as
  millisecond timestamps (`Int`).
* `Math.round(x)` on the nonnegative weighted sum `u*0.3+q*0.3+i*0.2+m*0.2`
  is `⌊x+1/2⌋`, i.e. `(3u+3q+2i+2m+5)/10` in exact (rational) arithmetic;
  the embedding uses that exact form on `Nat`.
* JS truthiness of an optional string field (`if (tool.installCommand)`,
  `if (github.license)`) is `isTruthyStr`: present and nonempty.
-/

/-! ## Character helpers -/

/-- The JS regex class `\s` (whitespace), restricted to the characters the
program can meet: space, tab, newline, carriage return, vertical tab, form
feed and no-break space. -/
def isWsChar (c : Char) : Bool :=
  c = ' ' || c = '\t' || c = '\n' || c = '\r' || c = '\x0b' || c = '\x0c' || c = ' '

/-- `String.prototype.toLowerCase`, modelled on the ASCII range: `A`-`Z` maps
to `a`-`z`, everything else is unchanged. -/
def jsToLower (c : Char) : Char :=
  if 65 ≤ c.toNat ∧ c.toNat ≤ 90 then Char.ofNat (c.toNat + 32) else c

/-- The regex class `[a-z0-9]` (lower-case ASCII alphanumeric). -/
def lcAlnum (c : Char) : Bool :=
  (97 ≤ c.toNat && c.toNat ≤ 122) || (48 ≤ c.toNat && c.toNat ≤ 57)

/-- `s.toLowerCase()` on a whole string. -/
def jsToLowerStr (s : String) : String :=
  String.mk (s.data.map jsToLower)

/-- `s.includes(sub)` — substring test. -/
def jsIncludes (s sub : String) : Bool :=
  decide (sub.data <:+: s.data)

/-- `s.trim()` on a character list: drop whitespace from both ends. -/
def jsTrimChars (cs : List Char) : List Char :=
  ((cs.dropWhile isWsChar).reverse.dropWhile isWsChar).reverse

/-- `s.trim()` on a string. -/
def jsTrim (s : String) : String :=
  String.mk (jsTrimChars s.data)

/-- JS truthiness of an optional string field: absent and `""` are falsy. -/
def isTruthyStr : Option String → Bool
  | none => false
  | some s => !(s = "")

/-- `content.split(sep)` for a single-character separator, on char lists. -/
def splitOnChar (sep : Char) : List Char → List (List Char)
  | [] => [[]]
  | c :: cs =>
    match splitOnChar sep cs with
    | [] => [[c]]
    | h :: t => if c = sep then [] :: h :: t else (c :: h) :: t

/-! ## `slugify` (parse.ts)

```ts
function slugify(text: string): string {
  return text
    .toLowerCase()
    .replace(/[^a-z0-9]+/g, "-")
    .replace(/^-|-$/g, "");
}
```
-/

/-- `.replace(/[^a-z0-9]+/g, "-")`: every maximal run of characters outside
`[a-z0-9]` becomes a single hyphen.  The flag records whether we are inside a
run whose hyphen has already been emitted. -/
def collapseRuns : Bool → List Char → List Char
  | _, [] => []
  | inRun, c :: cs =>
    if lcAlnum c then c :: collapseRuns false cs
    else if inRun then collapseRuns true cs
    else '-' :: collapseRuns true cs

/-- `.replace(/^-|-$/g, "")`, the `^-` alternative: drop one leading hyphen. -/
def stripLead : List Char → List Char
  | [] => []
  | c :: cs => if c = '-' then cs else c :: cs

/-- `.replace(/^-|-$/g, "")`, the `-$` alternative: drop one trailing hyphen. -/
def stripTrail : List Char → List Char
  | [] => []
  | [c] => if c = '-' then [] else [c]
  | c :: cs => c :: stripTrail cs

/-- `slugify` from parse.ts. -/
def slugify (text : String) : String :=
  String.mk (stripTrail (stripLead (collapseRuns false (text.data.map jsToLower))))

/-! ## Data model (models/types.ts) -/

inductive ToolCategory
  | claudePlugin
  | claudeSkill
  | npmPackage
  | cliTool
  | library
  | framework
  | other
deriving DecidableEq, Repr

/-- The string value of the TS union type `ToolCategory`. -/
def ToolCategory.str : ToolCategory → String
  | .claudePlugin => "claude-plugin"
  | .claudeSkill => "claude-skill"
  | .npmPackage => "npm-package"
  | .cliTool => "cli-tool"
  | .library => "library"
  | .framework => "framework"
  | .other => "other"

structure Tool where
  name : String
  slug : String
  description : String
  installCommand : Option String
  githubUrl : Option String
  source : Option String
  category : ToolCategory
  extractedAt : String
deriving DecidableEq, Repr

structure NewsItem where
  headline : String
  summary : String
  source : Option String
deriving DecidableEq, Repr

/-- GitHub enrichment data.  The two date fields hold what
`new Date(field).getTime()` yields in the source: milliseconds since epoch. -/
structure GitHubData where
  repoUrl : String
  stars : Nat
  forks : Nat
  openIssues : Nat
  lastCommitDate : Int
  createdAt : Int
  language : String
  license : Option String
  hasTests : Bool
  hasCI : Bool
  readme : Option String
deriving DecidableEq, Repr

/-- npm enrichment data; `lastPublished` as milliseconds since epoch. -/
structure NpmData where
  packageName : String
  weeklyDownloads : Nat
  version : String
  lastPublished : Int
  dependencies : Nat
  devDependencies : Nat
deriving DecidableEq, Repr

structure WebSource where
  url : String
  title : String
  snippet : String
deriving DecidableEq, Repr

structure ToolResearch where
  tool : Tool
  github : Option GitHubData
  npm : Option NpmData
  webSources : List WebSource
  researchedAt : String
deriving DecidableEq, Repr

inductive Recommendation
  | SKIP
  | WATCH
  | BUILD
deriving DecidableEq, Repr

structure ToolScore where
  tool : Tool
  research : ToolResearch
  usefulnessScore : Nat
  qualityScore : Nat
  innovationScore : Nat
  momentumScore : Nat
  totalScore : Nat
  recommendation : Recommendation
  notes : List String
  scoredAt : String
deriving DecidableEq, Repr

/-! ## Scoring engine (score.ts)

Each `calculate*Score` mirrors the source's mutation of a local `score`
(base value plus a bonus per satisfied rule, then `Math.min(100, Math.max(0,
score))`) and of the shared `notes` array (returned here as the second
component). -/

/-- `calculateUsefulnessScore` (score.ts, base 50). -/
def calculateUsefulnessScore (research : ToolResearch) : Nat × List String :=
  let tool := research.tool
  let text := jsToLowerStr (tool.name ++ " " ++ tool.description ++ " " ++ tool.category.str)
  let b1 := jsIncludes text "claude" || jsIncludes text "anthropic"
  let b2 := tool.category = ToolCategory.claudePlugin ∨ tool.category = ToolCategory.claudeSkill
  let b3 := tool.category = ToolCategory.cliTool
  let b4 := isTruthyStr tool.installCommand
  let score := 50 + (if b1 then 20 else 0) + (if b2 then 15 else 0)
      + (if b3 then 10 else 0) + (if b4 then 5 else 0)
  let notes := (if b1 then ["Claude-related tool (+20)"] else [])
      ++ (if b2 then ["Claude plugin/skill (+15)"] else [])
      ++ (if b3 then ["CLI tool (+10)"] else [])
      ++ (if b4 then ["Has install command (+5)"] else [])
  (min 100 (max 0 score), notes)

/-- `calculateQualityScore` (score.ts, base 30). -/
def calculateQualityScore (research : ToolResearch) : Nat × List String :=
  let ghPart : Nat × List String :=
    match research.github with
    | none => (0, [])
    | some github =>
      let stars : Nat × List String :=
        if github.stars > 1000 then (25, ["High stars: " ++ toString github.stars ++ " (+25)"])
        else if github.stars > 100 then (15, ["Good stars: " ++ toString github.stars ++ " (+15)"])
        else if github.stars > 10 then (5, ["Some stars: " ++ toString github.stars ++ " (+5)"])
        else (0, [])
      let tests : Nat × List String := if github.hasTests then (10, ["Has tests (+10)"]) else (0, [])
      let ci : Nat × List String := if github.hasCI then (5, ["Has CI (+5)"]) else (0, [])
      let lic : Nat × List String := if isTruthyStr github.license then (5, ["Has license (+5)"]) else (0, [])
      (stars.1 + tests.1 + ci.1 + lic.1, stars.2 ++ tests.2 ++ ci.2 ++ lic.2)
  let npmPart : Nat × List String :=
    match research.npm with
    | none => (0, [])
    | some npm =>
      if npm.weeklyDownloads > 10000 then (15, ["High npm downloads (+15)"])
      else if npm.weeklyDownloads > 1000 then (10, ["Good npm downloads (+10)"])
      else (0, [])
  (min 100 (max 0 (30 + ghPart.1 + npmPart.1)), ghPart.2 ++ npmPart.2)

/-- The fixed innovative-term list of `calculateInnovationScore`. -/
def innovativeTerms : List String :=
  ["novel", "first", "unique", "new approach", "revolutionary", "breakthrough"]

/-- `calculateInnovationScore` (score.ts, base 50).  The source's
`for ... break` over `innovativeTerms` is the first match of `find?`. -/
def calculateInnovationScore (research : ToolResearch) : Nat × List String :=
  let text := jsToLowerStr (research.tool.name ++ " " ++ research.tool.description)
  let termPart : Nat × List String :=
    match innovativeTerms.find? (fun term => jsIncludes text term) with
    | some term => (15, ["Innovative term: \"" ++ term ++ "\" (+15)"])
    | none => (0, [])
  let aiPart : Nat × List String :=
    if jsIncludes text "ai" || jsIncludes text "llm" || jsIncludes text "agent" then
      (10, ["AI/LLM related (+10)"])
    else (0, [])
  (min 100 (max 0 (50 + termPart.1 + aiPart.1)), termPart.2 ++ aiPart.2)

/-- `calculateMomentumScore` (score.ts, base 40).  `daysSinceCommit` is
`(Date.now() - lastCommit.getTime()) / (1000*60*60*24)` as an exact rational. -/
def calculateMomentumScore (nowMs : Int) (research : ToolResearch) : Nat × List String :=
  let ghPart : Nat × List String :=
    match research.github with
    | none => (0, [])
    | some github =>
      let daysSinceCommit : ℚ := ((nowMs - github.lastCommitDate : Int) : ℚ) / (1000 * 60 * 60 * 24)
      if daysSinceCommit < 7 then (30, ["Very recent activity (<7 days) (+30)"])
      else if daysSinceCommit < 30 then (20, ["Recent activity (<30 days) (+20)"])
      else if daysSinceCommit < 90 then (10, ["Some activity (<90 days) (+10)"])
      else (0, [])
  let npmPart : Nat × List String :=
    match research.npm with
    | none => (0, [])
    | some npm =>
      let daysSincePublish : ℚ := ((nowMs - npm.lastPublished : Int) : ℚ) / (1000 * 60 * 60 * 24)
      if daysSincePublish < 30 then (15, ["Recently published (+15)"])
      else (0, [])
  (min 100 (max 0 (40 + ghPart.1 + npmPart.1)), ghPart.2 ++ npmPart.2)

/-- `scoreTool` (score.ts).  The weighted total
`Math.round(u*0.3 + q*0.3 + i*0.2 + m*0.2)` is `⌊(3u+3q+2i+2m)/10 + 1/2⌋ =
(3u+3q+2i+2m+5)/10` in exact arithmetic; thresholds build = 70, watch = 40. -/
def scoreTool (nowMs : Int) (nowIso : String) (research : ToolResearch) : ToolScore :=
  let u := calculateUsefulnessScore research
  let q := calculateQualityScore research
  let i := calculateInnovationScore research
  let m := calculateMomentumScore nowMs research
  let totalScore := (3 * u.1 + 3 * q.1 + 2 * i.1 + 2 * m.1 + 5) / 10
  let recommendation : Recommendation :=
    if totalScore ≥ 70 then .BUILD
    else if totalScore ≥ 40 then .WATCH
    else .SKIP
  { tool := research.tool
    research := research
    usefulnessScore := u.1
    qualityScore := q.1
    innovationScore := i.1
    momentumScore := m.1
    totalScore := totalScore
    recommendation := recommendation
    notes := u.2 ++ q.2 ++ i.2 ++ m.2
    scoredAt := nowIso }

/-! ## Extractor (parse.ts): line matchers

`extractTools` scans line by line with two boundary regexes and, at finalize
time, four metadata regexes over the accumulated block.  Each regex is
hand-compiled below, implementing the JS engine's backtracking exactly for
that pattern. -/

/-- The character class `[\s•\-\*]` of the bullet boundary pattern. -/
def isBulletClassChar (c : Char) : Bool :=
  isWsChar c || c = '•' || c = '-' || c = '*'

/-- The class `[-–—]` (hyphen, en dash, em dash) of the H3 subtitle group. -/
def isDashSep (c : Char) : Bool :=
  c = '-' || c = '–' || c = '—'

/-- The class `[:\s]` of the bullet pattern. -/
def isColonWsChar (c : Char) : Bool :=
  c = ':' || isWsChar c

/-- The optional group `(?:\s*[-–—]\s*(.+))?` of the H3 pattern, tried at a
given suffix `S`: `\s*` can only stop at the dash (whitespace never matches
`[-–—]`), the second `\s*` is greedy but backtracks until `(.+)` keeps at
least one character. -/
def dashMatch (S : List Char) : Option (List Char) :=
  match S.dropWhile isWsChar with
  | [] => none
  | d :: T =>
    if isDashSep d then
      if T.isEmpty then none
      else some (T.drop (min (T.takeWhile isWsChar).length (T.length - 1)))
    else none

/-- The lazy group `(.+?)` of the H3 pattern: grow the name one character at a
time, stopping at the first position where the optional dash group (or the end
of the line) matches.  `acc` holds the name so far, reversed. -/
def h3Body (acc : List Char) : List Char → List Char × Option (List Char)
  | [] => (acc.reverse, none)
  | c :: rest =>
    match dashMatch (c :: rest) with
    | some sub => (acc.reverse, some sub)
    | none => h3Body (c :: acc) rest

/-- `h3Pattern = /^###\s+(.+?)(?:\s*[-–—]\s*(.+))?$/` applied to a trimmed
line: returns (group 1, group 2). -/
def matchH3 (cs : List Char) : Option (List Char × Option (List Char)) :=
  match cs with
  | '#' :: '#' :: '#' :: rest =>
    if (rest.takeWhile isWsChar).isEmpty then none
    else
      match rest.dropWhile isWsChar with
      | [] => none
      | r :: rs => some (h3Body [r] rs)
  | _ => none

/-- One attempt of the bullet pattern with the leading class run cut at `m`
characters: `\*\*`, then `([^*]+)` (greedy, forced maximal), then `\*\*`,
then `[:\s]+` (greedy, backtracking until `(.+)` keeps one character). -/
def bulletTryAt (cs : List Char) (m : Nat) : Option (List Char × List Char) :=
  match cs.drop m with
  | '*' :: '*' :: rest =>
    let g1 := rest.takeWhile (fun c => !(c = '*'))
    if g1.isEmpty then none
    else
      match rest.drop g1.length with
      | '*' :: '*' :: U =>
        let crun := (U.takeWhile isColonWsChar).length
        if 1 ≤ crun ∧ 2 ≤ U.length then
          some (g1, U.drop (min crun (U.length - 1)))
        else none
      | _ => none
  | _ => none

/-- Backtracking over the greedy leading run `[\s•\-\*]+`: try the maximal
run length first, then shorter cuts down to one character. -/
def bulletLoop (cs : List Char) : Nat → Option (List Char × List Char)
  | 0 => none
  | m + 1 =>
    match bulletTryAt cs (m + 1) with
    | some r => some r
    | none => bulletLoop cs m

/-- `bulletPattern = /^[\s•\-\*]+\*\*([^*]+)\*\*[:\s]+(.+)/` applied to a
trimmed line: returns (group 1, group 2). -/
def matchBullet (cs : List Char) : Option (List Char × List Char) :=
  bulletLoop cs (cs.takeWhile isBulletClassChar).length

/-- Case-insensitive literal prefix test (the `/i` flag folds both sides). -/
def ciStartsWith : List Char → List Char → Bool
  | [], _ => true
  | _ :: _, [] => false
  | p :: ps, c :: cs => jsToLower p = jsToLower c && ciStartsWith ps cs

/-- Leftmost-match scanning: try the literal (case-insensitively) followed by
`body` at every position, moving one character forward on failure — exactly
how the JS engine searches for an unanchored pattern. -/
def scanFor (lit : List Char) (body : List Char → Option (List Char)) : List Char → Option (List Char)
  | [] => none
  | c :: rest =>
    match (if ciStartsWith lit (c :: rest) then body ((c :: rest).drop lit.length) else none) with
    | some a => some a
    | none => scanFor lit body rest

/-- The backtick character (kept out of character-literal position). -/
def btChar : Char := ("`".data).headD ' '

/-- The class `[^`+newline]` of the installation pattern's group. -/
def okInstallChar (c : Char) : Bool :=
  !(c = btChar) && !(c = '\n')

/-- One attempt of the installation pattern's tail with `\s*` cut at `w`:
`` `? `` prefers to consume a backtick, then `` ([^`\n]+) `` must take at
least one character (the trailing `` `? `` never affects the group). -/
def installTryAt (rest : List Char) (w : Nat) : Option (List Char) :=
  match rest.drop w with
  | [] => none
  | c :: V =>
    if c = btChar then
      let g := V.takeWhile okInstallChar
      if g.isEmpty then none else some g
    else if okInstallChar c then some ((rest.drop w).takeWhile okInstallChar)
    else none

/-- Greedy `\s*` with backtracking for the installation pattern. -/
def installLoop (rest : List Char) : Nat → Option (List Char)
  | 0 => installTryAt rest 0
  | w + 1 =>
    match installTryAt rest (w + 1) with
    | some g => some g
    | none => installLoop rest w

/-- `installPattern = /\*\*Installation:\*\*\s*`?([^`\n]+)`?/i`. -/
def findInstall (cs : List Char) : Option (List Char) :=
  scanFor ("**installation:**".data)
    (fun rest => installLoop rest (rest.takeWhile isWsChar).length) cs

/-- The tail `:\/\/[^\s\n]+` of the GitHub pattern after the scheme letters;
`consumed` counts the scheme letters already taken from `V`, so the returned
group (`(https?:\/\/[^\s\n]+)`) reproduces the source text. -/
def githubTail (V W : List Char) (consumed : Nat) : Option (List Char) :=
  if ciStartsWith ("://".data) W then
    let g := (W.drop 3).takeWhile (fun c => !(isWsChar c))
    if g.isEmpty then none else some (V.take (consumed + 3 + g.length))
  else none

/-- `githubPattern = /\*\*GitHub:\*\*\s*(https?:\/\/[^\s\n]+)/i`: after the
literal, `\s*` is forced maximal (the next letter is not whitespace); `s?` is
greedy and backtracks. -/
def findGithub (cs : List Char) : Option (List Char) :=
  scanFor ("**github:**".data)
    (fun rest =>
      let V := rest.dropWhile isWsChar
      if ciStartsWith ("http".data) V then
        let V4 := V.drop 4
        let withS : Option (List Char) :=
          match V4 with
          | c :: V5 => if jsToLower c = 's' then githubTail V V5 5 else none
          | [] => none
        match withS with
        | some r => some r
        | none => githubTail V V4 4
      else none) cs

/-- Greedy `\s*` with backtracking followed by `([^\n]+)` (any characters up
to a newline, at least one), as in the application pattern. -/
def lineTryAt (rest : List Char) (w : Nat) : Option (List Char) :=
  match rest.drop w with
  | [] => none
  | c :: _ =>
    if c = '\n' then none
    else some ((rest.drop w).takeWhile (fun d => !(d = '\n')))

def lineLoop (rest : List Char) : Nat → Option (List Char)
  | 0 => lineTryAt rest 0
  | w + 1 =>
    match lineTryAt rest (w + 1) with
    | some g => some g
    | none => lineLoop rest w

/-- `applicationPattern = /\*\*Application:\*\*\s*([^\n]+)/i`. -/
def findApplication (cs : List Char) : Option (List Char) :=
  scanFor ("**application:**".data)
    (fun rest => lineLoop rest (rest.takeWhile isWsChar).length) cs

/-- The class `[\w_]` (word characters) of the source pattern. -/
def isWordChar (c : Char) : Bool :=
  (97 ≤ c.toNat && c.toNat ≤ 122) || (65 ≤ c.toNat && c.toNat ≤ 90)
    || (48 ≤ c.toNat && c.toNat ≤ 57) || c = '_'

/-- `sourcePattern = /\*\*Source:\*\*\s*(@[\w_]+)/i`: `\s*` is forced maximal
(`@` is not whitespace). -/
def findSource (cs : List Char) : Option (List Char) :=
  scanFor ("**source:**".data)
    (fun rest =>
      match rest.dropWhile isWsChar with
      | '@' :: T =>
        let g := T.takeWhile isWordChar
        if g.isEmpty then none else some ('@' :: g)
      | _ => none) cs

/-! ## Extractor: scan state machine -/

/-- The source's `Partial<Tool>` accumulation record (`currentTool`). -/
structure ToolDraft where
  name : String
  slug : String
  installCommand : Option String
  githubUrl : Option String
  source : Option String
  extractedAt : String
deriving DecidableEq, Repr

/-- The mutable locals of `extractTools`: `tools`, `currentTool`,
`currentDescription`, `currentBlock`. -/
structure ScanState where
  tools : List Tool
  cur : Option ToolDraft
  desc : List (List Char)
  block : List (List Char)
deriving DecidableEq, Repr

/-- The reserved metadata-field names skipped by the bullet boundary. -/
def metadataFields : List String :=
  ["installation", "github", "application", "source", "npm", "usage", "docs", "license"]

/-- `fieldName.replace(":", "")` — a string-argument `replace` removes only
the first occurrence. -/
def removeFirstColon : List Char → List Char
  | [] => []
  | c :: cs => if c = ':' then cs else c :: removeFirstColon cs

/-- `detectCategory` (parse.ts): ordered keyword triggers over the lower-cased
name + description, first match wins. -/
def detectCategory (name description : String) : ToolCategory :=
  let text := jsToLowerStr (name ++ " " ++ description)
  if jsIncludes text "plugin" || jsIncludes text "claude code" then .claudePlugin
  else if jsIncludes text "skill" then .claudeSkill
  else if jsIncludes text "cli" || jsIncludes text "command" then .cliTool
  else if jsIncludes text "framework" then .framework
  else if jsIncludes text "npm" || jsIncludes text "package" then .npmPackage
  else .other

/-- `finalizeTool` (parse.ts); `x || y` on strings is modelled by the
emptiness test, `description.slice(0, 500)` by `take 500`. -/
def finalizeTool (draft : ToolDraft) (description : String) (nowIso : String) : Tool :=
  { name := if draft.name = "" then "Unknown" else draft.name
    slug := if draft.slug = "" then slugify (if draft.name = "" then "unknown" else draft.name) else draft.slug
    description := String.mk (description.data.take 500)
    installCommand := draft.installCommand
    githubUrl := draft.githubUrl
    source := draft.source
    category := detectCategory draft.name description
    extractedAt := if draft.extractedAt = "" then nowIso else draft.extractedAt }

/-- `currentBlock.join("\n")`. -/
def joinNl (ls : List (List Char)) : List Char :=
  match ls with
  | [] => []
  | l :: rest => l ++ (rest.foldl (fun acc x => acc ++ '\n' :: x) [])

/-- `currentDescription.join(" ")`. -/
def joinSpace (ls : List (List Char)) : String :=
  String.mk (match ls with
  | [] => []
  | l :: rest => l ++ (rest.foldl (fun acc x => acc ++ ' ' :: x) []))

/-- The `saveTool` closure of `extractTools`: if a tool is being accumulated
and has a name, extract the four metadata fields from the joined block text
and push the finalized tool. -/
def saveTool (nowIso : String) (st : ScanState) : ScanState :=
  match st.cur with
  | none => st
  | some draft =>
    if draft.name = "" then st
    else
      let blockText := joinNl st.block
      let inst := match findInstall blockText with
        | some v => some (String.mk (jsTrimChars v))
        | none => draft.installCommand
      let gh := match findGithub blockText with
        | some v => some (String.mk (jsTrimChars v))
        | none => draft.githubUrl
      let desc1 := match findApplication blockText with
        | some v => if st.desc.isEmpty then st.desc ++ [jsTrimChars v] else st.desc
        | none => st.desc
      let src := match findSource blockText with
        | some v => some (String.mk (jsTrimChars v))
        | none => draft.source
      { st with tools := st.tools ++
          [finalizeTool { draft with installCommand := inst, githubUrl := gh, source := src }
            (joinSpace desc1) nowIso] }

/-- Block-content accumulation for a non-boundary line: push the raw line,
and capture the first plain line as the description when none exists yet. -/
def collectLine (st : ScanState) (line trimmed : List Char) : ScanState :=
  match st.cur with
  | none => st
  | some _ =>
    let keepDesc :=
      0 < trimmed.length
        && !(decide (trimmed.take 1 = ['-'])) && !(decide (trimmed.take 1 = ['*']))
        && !(decide (trimmed.take 1 = ['#'])) && st.desc.isEmpty
    { st with
      block := st.block ++ [line]
      desc := if keepDesc then st.desc ++ [trimmed] else st.desc }

/-- One iteration of the `for` loop of `extractTools`: H3 boundary first,
then the bullet boundary (skipped for reserved metadata field names), else
block accumulation. -/
def extractStep (nowIso : String) (st : ScanState) (line : List Char) : ScanState :=
  let trimmed := jsTrimChars line
  match matchH3 trimmed with
  | some (g1, g2) =>
    let st1 := saveTool nowIso st
    { st1 with
      cur := some
        { name := String.mk (jsTrimChars g1)
          slug := slugify (String.mk (jsTrimChars g1))
          installCommand := none, githubUrl := none, source := none
          extractedAt := nowIso }
      desc := match g2 with | some sub => [jsTrimChars sub] | none => []
      block := [] }
  | none =>
    match matchBullet trimmed with
    | some (g1, g2) =>
      let fieldName := (jsTrimChars g1).map jsToLower
      if !(metadataFields.contains (String.mk (removeFirstColon fieldName))) then
        let st1 := saveTool nowIso st
        { st1 with
          cur := some
            { name := String.mk (jsTrimChars g1)
              slug := slugify (String.mk (jsTrimChars g1))
              installCommand := none, githubUrl := none, source := none
              extractedAt := nowIso }
          desc := [jsTrimChars g2]
          block := [] }
      else collectLine st line trimmed
    | none => collectLine st line trimmed

/-- `extractTools` (parse.ts).  `nowIso` models `new Date().toISOString()`
(taken constant within one run). -/
def extractTools (nowIso : String) (content : String) : List Tool :=
  let lines := splitOnChar '\n' content.data
  let final := lines.foldl (extractStep nowIso) { tools := [], cur := none, desc := [], block := [] }
  (saveTool nowIso final).tools

/-! ## News extraction (parse.ts) -/

/-- The section-opening literal of
`/1\.\s*Key\s*News[^]*?(?=2\.|$)/i`: `1.` then `\s*` then `Key` then `\s*`
then `News`, case-insensitively; both `\s*` are forced maximal (the letters
that follow are not whitespace).  Returns the matched length. -/
def newsHeadLen (cs : List Char) : Option Nat :=
  match cs with
  | '1' :: '.' :: rest =>
    let w1 := (rest.takeWhile isWsChar).length
    let r1 := rest.drop w1
    if ciStartsWith ("key".data) r1 then
      let r2 := r1.drop 3
      let w2 := (r2.takeWhile isWsChar).length
      let r3 := r2.drop w2
      if ciStartsWith ("news".data) r3 then some (2 + w1 + 3 + w2 + 4) else none
    else none
  | _ => none

/-- The lazy body `[^]*?(?=2\.|$)`: number of characters up to the first
occurrence of the literal `2.` (or to the end of the input). -/
def seekTwoDot : List Char → Nat
  | [] => 0
  | '2' :: '.' :: _ => 0
  | _ :: r => 1 + seekTwoDot r

/-- `content.match(/1\.\s*Key\s*News[^]*?(?=2\.|$)/i)`: leftmost match. -/
def findNewsSection : List Char → Option (List Char)
  | [] => none
  | c :: rest =>
    match newsHeadLen (c :: rest) with
    | some n => some ((c :: rest).take (n + seekTwoDot ((c :: rest).drop n)))
    | none => findNewsSection rest

/-- The class `[•\-\*]` of the news bullet pattern. -/
def isNewsBulletChar (c : Char) : Bool :=
  c = '•' || c = '-' || c = '*'

/-- The class `[^•\-\*\n]` of the news bullet group. -/
def okNewsChar (c : Char) : Bool :=
  !(isNewsBulletChar c) && !(c = '\n')

/-- One attempt of the news bullet tail with `\s*` cut at `w`:
`([^•\-\*\n]+)` must take at least one character.  Returns the group and how
many characters of `rest` the match consumed. -/
def newsTryAt (rest : List Char) (w : Nat) : Option (List Char × Nat) :=
  match rest.drop w with
  | [] => none
  | c :: _ =>
    if okNewsChar c then
      let g := (rest.drop w).takeWhile okNewsChar
      some (g, w + g.length)
    else none

/-- Greedy `\s*` with backtracking for the news bullet pattern. -/
def newsLoop (rest : List Char) : Nat → Option (List Char × Nat)
  | 0 => newsTryAt rest 0
  | w + 1 =>
    match newsTryAt rest (w + 1) with
    | some r => some r
    | none => newsLoop rest w

/-- `section.match(/[•\-\*]\s*([^•\-\*\n]+)/g)`: all matches, scanning left
to right and resuming after each match.  Every successful match consumes at
least the bullet character, so `fuel = length + 1` never runs out. -/
def scanBulletsGo : Nat → List Char → List (List Char)
  | 0, _ => []
  | _, [] => []
  | fuel + 1, c :: rest =>
    if isNewsBulletChar c then
      match newsLoop rest (rest.takeWhile isWsChar).length with
      | some (g, consumed) => g :: scanBulletsGo fuel (rest.drop consumed)
      | none => scanBulletsGo fuel rest
    else scanBulletsGo fuel rest

/-- The text of each bullet:
`bullet.replace(/^[•\-\*]\s*/, "").trim()` strips the bullet marker and the
whitespace after it, which together with `trim` is exactly trimming the
captured group. -/
def newsBullets (sec : List Char) : List String :=
  (scanBulletsGo (sec.length + 1) sec).map (fun g => String.mk (jsTrimChars g))

/-- `text.split(":")[0] || text.slice(0, 50)`: the prefix before the first
colon, or the 50-character prefix when that is empty. -/
def newsHeadline (text : String) : String :=
  let beforeColon := text.data.takeWhile (fun c => !(c = ':'))
  if beforeColon.isEmpty then String.mk (text.data.take 50) else String.mk beforeColon

/-- `extractNews` (parse.ts): bullets of the Key News section whose trimmed
text is longer than 20 characters. -/
def extractNews (content : String) : List NewsItem :=
  match findNewsSection content.data with
  | none => []
  | some sec =>
    (newsBullets sec).filterMap (fun text =>
      if 20 < text.length then
        some { headline := newsHeadline text, summary := text, source := none }
      else none)

/-! ## Auxiliary definitions for the verification -/

/-- Characters a slug can contain: `[a-z0-9]` or a hyphen. -/
def isSlugChar (c : Char) : Bool := lcAlnum c || c == '-'

/-- No two adjacent hyphens in a character list. -/
def noDD : List Char → Bool
  | [] => true
  | [_] => true
  | a :: b :: t => !(a == '-' && b == '-') && noDD (b :: t)

/-- Erase the extraction timestamp of a finished tool. -/
def eraseExtractedAt (t : Tool) : Tool := { t with extractedAt := "" }

/-- Erase the extraction timestamp of a draft. -/
def eraseDraftTime (d : ToolDraft) : ToolDraft := { d with extractedAt := "" }

/-- The trimmed texts of the bullets of the Key News section of a digest. -/
def newsBulletsOf (content : String) : List String :=
  match findNewsSection content.data with
  | none => []
  | some sec => newsBullets sec

/-! ## Concrete inputs used by witnesses and counterexamples -/

/-- A concrete no-enrichment Claude-plugin research record for the C5 witness. -/
def c5research : ToolResearch :=
  { tool :=
      { name := "X", slug := "x", description := "A Claude Code plugin",
        installCommand := some "bun add x", githubUrl := none, source := none,
        category := .claudePlugin, extractedAt := "" }
    github := none, npm := none, webSources := [], researchedAt := "" }

/-- The four-line digest of the C3 end-to-end scenario. -/
def aiderContent : String :=
  "### Aider\nAn AI pair programming CLI.\n**Installation:** `pip install aider`\n**GitHub:** https://github.com/paul-gauthier/aider"

/-- A digest whose tool block contains a reserved `**GitHub:**` bullet. -/
def c4content : String := "### MyTool\nSome description.\n- **GitHub:** https://github.com/x/y"

/-- The single tool extracted from `c4content` (no tool named "GitHub"). -/
def c4tool : Tool :=
  { name := "MyTool", slug := "mytool", description := "Some description.",
    installCommand := none, githubUrl := some "https://github.com/x/y",
    source := none, category := ToolCategory.other, extractedAt := "T" }

/-- A scan state in the middle of accumulating a tool. -/
def c4state : ScanState :=
  { tools := [],
    cur := some { name := "MyTool", slug := "mytool", installCommand := none,
                  githubUrl := none, source := none, extractedAt := "T" },
    desc := [], block := [] }

/-- A reserved metadata bullet line. -/
def c4line : List Char := "- **GitHub:** https://github.com/x/y".data

/-- A digest whose Key News section has one bullet of exactly 20 characters. -/
def newsLen20Content : String := "1. Key News\n- aaaaaaaaaaaaaaaaaaaa"

/-- A draft with an empty name, exercising `finalizeTool`'s fallbacks. -/
def emptyDraft : ToolDraft :=
  { name := "", slug := "", installCommand := none, githubUrl := none,
    source := none, extractedAt := "" }

/-! ## Scorer: shared bound lemmas -/

theorem calculateUsefulnessScore_bounds (research : ToolResearch) :
    50 ≤ (calculateUsefulnessScore research).1 ∧ (calculateUsefulnessScore research).1 ≤ 100 := by
  simp only [calculateUsefulnessScore]
  split_ifs <;> omega

theorem calculateQualityScore_bounds (research : ToolResearch) :
    30 ≤ (calculateQualityScore research).1 ∧ (calculateQualityScore research).1 ≤ 100 := by
  simp only [calculateQualityScore]
  cases research.github <;> cases research.npm <;> omega

theorem calculateInnovationScore_bounds (research : ToolResearch) :
    50 ≤ (calculateInnovationScore research).1 ∧ (calculateInnovationScore research).1 ≤ 100 := by
  simp only [calculateInnovationScore]
  cases innovativeTerms.find? _ <;> omega

theorem calculateMomentumScore_bounds (nowMs : Int) (research : ToolResearch) :
    40 ≤ (calculateMomentumScore nowMs research).1 ∧ (calculateMomentumScore nowMs research).1 ≤ 100 := by
  simp only [calculateMomentumScore]
  cases research.github <;> cases research.npm <;> omega

/-- The fields of `scoreTool`'s result, in terms of the four sub-scorers. -/
theorem scoreTool_eq_fields (nowMs : Int) (nowIso : String) (research : ToolResearch) :
    (scoreTool nowMs nowIso research).usefulnessScore = (calculateUsefulnessScore research).1 ∧
    (scoreTool nowMs nowIso research).qualityScore = (calculateQualityScore research).1 ∧
    (scoreTool nowMs nowIso research).innovationScore = (calculateInnovationScore research).1 ∧
    (scoreTool nowMs nowIso research).momentumScore = (calculateMomentumScore nowMs research).1 ∧
    (scoreTool nowMs nowIso research).totalScore =
      (3 * (calculateUsefulnessScore research).1 + 3 * (calculateQualityScore research).1 +
        2 * (calculateInnovationScore research).1 + 2 * (calculateMomentumScore nowMs research).1 + 5) / 10 :=
  ⟨rfl, rfl, rfl, rfl, rfl⟩

/-- The recommendation of `scoreTool`'s result, in terms of its total score. -/
theorem scoreTool_eq_recommendation (nowMs : Int) (nowIso : String) (research : ToolResearch) :
    (scoreTool nowMs nowIso research).recommendation =
      (if (scoreTool nowMs nowIso research).totalScore ≥ 70 then Recommendation.BUILD
       else if (scoreTool nowMs nowIso research).totalScore ≥ 40 then Recommendation.WATCH
       else Recommendation.SKIP) := rfl

/-! ## Claim theorems: scorer -/

/-- Claim C1: for every `ToolResearch` input, `scoreTool` returns
`usefulnessScore`, `qualityScore`, `innovationScore`, `momentumScore` and
`totalScore` that are each integers in the range [0,100].  The scores are
`Nat`-valued by construction (integers ≥ 0); this theorem adds both range
bounds explicitly. -/
theorem scoreTool_scores_in_range (nowMs : Int) (nowIso : String) (research : ToolResearch) :
    (0 ≤ (scoreTool nowMs nowIso research).usefulnessScore ∧ (scoreTool nowMs nowIso research).usefulnessScore ≤ 100) ∧
    (0 ≤ (scoreTool nowMs nowIso research).qualityScore ∧ (scoreTool nowMs nowIso research).qualityScore ≤ 100) ∧
    (0 ≤ (scoreTool nowMs nowIso research).innovationScore ∧ (scoreTool nowMs nowIso research).innovationScore ≤ 100) ∧
    (0 ≤ (scoreTool nowMs nowIso research).momentumScore ∧ (scoreTool nowMs nowIso research).momentumScore ≤ 100) ∧
    (0 ≤ (scoreTool nowMs nowIso research).totalScore ∧ (scoreTool nowMs nowIso research).totalScore ≤ 100) := by
  obtain ⟨h1, h2, h3, h4, h5⟩ := scoreTool_eq_fields nowMs nowIso research
  have b1 := calculateUsefulnessScore_bounds research
  have b2 := calculateQualityScore_bounds research
  have b3 := calculateInnovationScore_bounds research
  have b4 := calculateMomentumScore_bounds nowMs research
  omega

/-- Claim C2: `scoreTool` recommends BUILD exactly when `totalScore ≥ 70`,
WATCH exactly when `40 ≤ totalScore ≤ 69`, and SKIP exactly when
`totalScore ≤ 39`; in particular total 70 gives BUILD, 69 and 40 give WATCH,
and 39 gives SKIP (each an instance of the corresponding equivalence). -/
theorem scoreTool_recommendation_bands (nowMs : Int) (nowIso : String) (research : ToolResearch) :
    ((scoreTool nowMs nowIso research).recommendation = Recommendation.BUILD ↔
      70 ≤ (scoreTool nowMs nowIso research).totalScore) ∧
    ((scoreTool nowMs nowIso research).recommendation = Recommendation.WATCH ↔
      (40 ≤ (scoreTool nowMs nowIso research).totalScore ∧ (scoreTool nowMs nowIso research).totalScore ≤ 69)) ∧
    ((scoreTool nowMs nowIso research).recommendation = Recommendation.SKIP ↔
      (scoreTool nowMs nowIso research).totalScore ≤ 39) := by
  rw [scoreTool_eq_recommendation]
  split_ifs <;> refine ⟨?_, ?_, ?_⟩ <;> simp <;> omega

/-- Claim C9: every dimension score of `scoreTool` is at least its base value
(usefulness 50, quality 30, innovation 50, momentum 40) since every rule only
adds a non-negative bonus; hence `totalScore ≥ 42` and SKIP is never
returned. -/
theorem scoreTool_base_floors_no_skip (nowMs : Int) (nowIso : String) (research : ToolResearch) :
    50 ≤ (scoreTool nowMs nowIso research).usefulnessScore ∧
    30 ≤ (scoreTool nowMs nowIso research).qualityScore ∧
    50 ≤ (scoreTool nowMs nowIso research).innovationScore ∧
    40 ≤ (scoreTool nowMs nowIso research).momentumScore ∧
    42 ≤ (scoreTool nowMs nowIso research).totalScore ∧
    (scoreTool nowMs nowIso research).recommendation ≠ Recommendation.SKIP := by
  obtain ⟨h1, h2, h3, h4, h5⟩ := scoreTool_eq_fields nowMs nowIso research
  have b1 := calculateUsefulnessScore_bounds research
  have b2 := calculateQualityScore_bounds research
  have b3 := calculateInnovationScore_bounds research
  have b4 := calculateMomentumScore_bounds nowMs research
  refine ⟨by omega, by omega, by omega, by omega, by omega, ?_⟩
  rw [scoreTool_eq_recommendation]
  split_ifs <;> simp <;> omega

/-- Claim C5: with no GitHub and no npm data, a Claude-plugin tool whose
description contains "Claude Code plugin" and that has an install command
scores usefulness 90 ( = 50 + 20 + 15 + 5), quality 30 (base only), momentum
40 (base only); innovation is 50 when no innovative term and none of
"ai"/"llm"/"agent" matches, and 60 when no innovative term matches but "ai"
appears.  Missing enrichment only withholds its bonuses — base scores remain. -/
theorem scoreTool_missing_enrichment_scores (nowMs : Int) (nowIso : String) (research : ToolResearch)
    (hg : research.github = none) (hn : research.npm = none)
    (hd : jsIncludes research.tool.description "Claude Code plugin" = true)
    (hic : isTruthyStr research.tool.installCommand = true)
    (hc : research.tool.category = ToolCategory.claudePlugin) :
    (scoreTool nowMs nowIso research).usefulnessScore = 90 ∧
    (scoreTool nowMs nowIso research).qualityScore = 30 ∧
    (scoreTool nowMs nowIso research).momentumScore = 40 ∧
    ((innovativeTerms.all (fun term =>
        !(jsIncludes (jsToLowerStr (research.tool.name ++ " " ++ research.tool.description)) term))) = true →
      (jsIncludes (jsToLowerStr (research.tool.name ++ " " ++ research.tool.description)) "ai"
        || jsIncludes (jsToLowerStr (research.tool.name ++ " " ++ research.tool.description)) "llm"
        || jsIncludes (jsToLowerStr (research.tool.name ++ " " ++ research.tool.description)) "agent") = false →
      (scoreTool nowMs nowIso research).innovationScore = 50) ∧
    ((innovativeTerms.all (fun term =>
        !(jsIncludes (jsToLowerStr (research.tool.name ++ " " ++ research.tool.description)) term))) = true →
      jsIncludes (jsToLowerStr (research.tool.name ++ " " ++ research.tool.description)) "ai" = true →
      (scoreTool nowMs nowIso research).innovationScore = 60) := by
  have hu : (scoreTool nowMs nowIso research).usefulnessScore = (calculateUsefulnessScore research).1 := rfl
  have hq : (scoreTool nowMs nowIso research).qualityScore = (calculateQualityScore research).1 := rfl
  have hm : (scoreTool nowMs nowIso research).momentumScore = (calculateMomentumScore nowMs research).1 := rfl
  have hi : (scoreTool nowMs nowIso research).innovationScore = (calculateInnovationScore research).1 := rfl
  refine ⟨?_, ?_, ?_, ?_, ?_⟩
  · rw [hu]
    have hb1 : jsIncludes (jsToLowerStr (research.tool.name ++ " " ++ research.tool.description
        ++ " " ++ research.tool.category.str)) "claude" = true := by
      simp only [jsIncludes, jsToLowerStr, decide_eq_true_eq]
      rw [hc]
      show "claude".data <:+: List.map jsToLower (_ : String).data
      simp only [String.data_append, List.map_append]
      have h1 : "claude".data <:+: List.map jsToLower ((ToolCategory.claudePlugin).str).data := by decide
      exact h1.trans ((List.suffix_append _ _).isInfix)
    rw [hc] at hb1
    simp [calculateUsefulnessScore, hc, hb1, hic]
  · rw [hq]; simp [calculateQualityScore, hg, hn]
  · rw [hm]; simp [calculateMomentumScore, hg, hn]
  · intro hterms hai
    rw [hi]
    have hfind : innovativeTerms.find? (fun term =>
        jsIncludes (jsToLowerStr (research.tool.name ++ " " ++ research.tool.description)) term) = none := by
      rw [List.find?_eq_none]
      intro a ha
      have := (List.all_eq_true.mp hterms) a ha
      simpa using this
    simp [calculateInnovationScore, hfind, hai]
  · intro hterms hai
    rw [hi]
    have hfind : innovativeTerms.find? (fun term =>
        jsIncludes (jsToLowerStr (research.tool.name ++ " " ++ research.tool.description)) term) = none := by
      rw [List.find?_eq_none]
      intro a ha
      have := (List.all_eq_true.mp hterms) a ha
      simpa using this
    simp [calculateInnovationScore, hfind, hai]

/-- Witness for claim C5 at a concrete input. -/
theorem scoreTool_missing_enrichment_scores_witness :
    (scoreTool 0 "" c5research).usefulnessScore = 90 ∧
    (scoreTool 0 "" c5research).qualityScore = 30 ∧
    (scoreTool 0 "" c5research).momentumScore = 40 ∧
    (scoreTool 0 "" c5research).innovationScore = 50 := by
  have h := scoreTool_missing_enrichment_scores 0 "" c5research rfl rfl (by decide) (by decide) rfl
  exact ⟨h.1, h.2.1, h.2.2.1, h.2.2.2.1 (by decide) (by decide)⟩

/-! ## Slugify: structural lemmas for idempotence -/

theorem lcAlnum_ne_dash {c : Char} (h : lcAlnum c = true) : c ≠ '-' := by
  intro he
  subst he
  simp [lcAlnum] at h

theorem collapseRuns_mem {b : Bool} {cs : List Char} {c : Char}
    (h : c ∈ collapseRuns b cs) : isSlugChar c = true := by
  induction cs generalizing b with
  | nil => simp [collapseRuns] at h
  | cons a t ih =>
    unfold collapseRuns at h
    by_cases ha : lcAlnum a = true
    · rw [if_pos ha] at h
      rcases List.mem_cons.mp h with he | hm
      · subst he; simp [isSlugChar, ha]
      · exact ih hm
    · rw [if_neg ha] at h
      cases b with
      | true => exact ih (by simpa using h)
      | false =>
        simp only [Bool.false_eq_true, if_false] at h
        rcases List.mem_cons.mp h with he | hm
        · subst he; simp [isSlugChar]
        · exact ih hm

theorem head?_collapseRuns_true (cs : List Char) :
    (collapseRuns true cs).head? ≠ some '-' := by
  induction cs with
  | nil => simp [collapseRuns]
  | cons a t ih =>
    unfold collapseRuns
    by_cases ha : lcAlnum a = true
    · rw [if_pos ha]
      simp only [List.head?_cons]
      intro he
      exact lcAlnum_ne_dash ha (by injection he)
    · rw [if_neg ha]
      simpa using ih

theorem noDD_tail {a : Char} {l : List Char} (h : noDD (a :: l) = true) : noDD l = true := by
  cases l with
  | nil => rfl
  | cons b t =>
    simp only [noDD, Bool.and_eq_true] at h
    exact h.2

theorem noDD_cons {a : Char} {l : List Char} (h : noDD l = true)
    (hh : a = '-' → l.head? ≠ some '-') : noDD (a :: l) = true := by
  cases l with
  | nil => rfl
  | cons b t =>
    simp only [noDD, Bool.and_eq_true]
    refine ⟨?_, h⟩
    by_cases hab : a = '-'
    · have hb : b ≠ '-' := fun he => hh hab (by simp [he])
      simp [hab, hb]
    · simp [hab]

theorem noDD_head {l : List Char} (h : noDD ('-' :: l) = true) : l.head? ≠ some '-' := by
  cases l with
  | nil => simp
  | cons b t =>
    intro he
    have hb : b = '-' := by injection he
    subst hb
    simp [noDD] at h

theorem noDD_collapseRuns (cs : List Char) : ∀ b, noDD (collapseRuns b cs) = true := by
  induction cs with
  | nil => intro b; rfl
  | cons a t ih =>
    intro b
    unfold collapseRuns
    by_cases ha : lcAlnum a = true
    · rw [if_pos ha]
      exact noDD_cons (ih false) (fun he => absurd he (lcAlnum_ne_dash ha))
    · rw [if_neg ha]
      cases b with
      | true => simpa using ih true
      | false =>
        simp only [Bool.false_eq_true, if_false]
        exact noDD_cons (ih true) (fun _ => head?_collapseRuns_true t)

theorem collapseRuns_fixed (cs : List Char) (hchars : ∀ c ∈ cs, isSlugChar c = true)
    (hdd : noDD cs = true) :
    collapseRuns false cs = cs ∧ (cs.head? ≠ some '-' → collapseRuns true cs = cs) := by
  induction cs with
  | nil => exact ⟨rfl, fun _ => rfl⟩
  | cons a t ih =>
    have ht := ih (fun c hc => hchars c (List.mem_cons_of_mem a hc)) (noDD_tail hdd)
    by_cases ha : lcAlnum a = true
    · constructor
      · unfold collapseRuns
        rw [if_pos ha, ht.1]
      · intro _
        unfold collapseRuns
        rw [if_pos ha, ht.1]
    · have hdash : a = '-' := by
        have := hchars a (List.mem_cons_self a t)
        simp [isSlugChar, ha] at this
        exact this
      subst hdash
      constructor
      · unfold collapseRuns
        rw [if_neg ha]
        simp only [Bool.false_eq_true, if_false]
        rw [ht.2 (noDD_head hdd)]
      · intro hh
        simp at hh

theorem stripLead_cons (c : Char) (cs : List Char) :
    stripLead (c :: cs) = if c = '-' then cs else c :: cs := rfl

theorem stripTrail_cons2 (a b : Char) (t : List Char) :
    stripTrail (a :: b :: t) = a :: stripTrail (b :: t) := rfl

theorem stripTrail_single (a : Char) : stripTrail [a] = if a = '-' then [] else [a] := rfl

theorem stripLead_mem {cs : List Char} {c : Char} (h : c ∈ stripLead cs) : c ∈ cs := by
  cases cs with
  | nil => simpa [stripLead] using h
  | cons a t =>
    rw [stripLead_cons] at h
    by_cases ha : a = '-'
    · rw [if_pos ha] at h
      exact List.mem_cons_of_mem _ h
    · rwa [if_neg ha] at h

theorem stripTrail_mem {cs : List Char} {c : Char} (h : c ∈ stripTrail cs) : c ∈ cs := by
  induction cs with
  | nil => simpa [stripTrail] using h
  | cons a t ih =>
    cases t with
    | nil =>
      rw [stripTrail_single] at h
      by_cases ha : a = '-'
      · rw [if_pos ha] at h; simp at h
      · rwa [if_neg ha] at h
    | cons b t' =>
      rw [stripTrail_cons2] at h
      rcases List.mem_cons.mp h with he | hm
      · subst he; exact List.mem_cons_self _ _
      · exact List.mem_cons_of_mem _ (ih hm)

theorem stripLead_head? {cs : List Char} (hdd : noDD cs = true) :
    (stripLead cs).head? ≠ some '-' := by
  cases cs with
  | nil => simp [stripLead]
  | cons a t =>
    rw [stripLead_cons]
    by_cases ha : a = '-'
    · rw [if_pos ha]
      subst ha
      exact noDD_head hdd
    · rw [if_neg ha]
      simpa using ha

theorem noDD_stripLead {cs : List Char} (hdd : noDD cs = true) : noDD (stripLead cs) = true := by
  cases cs with
  | nil => rfl
  | cons a t =>
    rw [stripLead_cons]
    by_cases ha : a = '-'
    · rw [if_pos ha]
      exact noDD_tail hdd
    · rwa [if_neg ha]

theorem stripTrail_head? (cs : List Char) :
    (stripTrail cs).head? = cs.head? ∨ stripTrail cs = [] := by
  cases cs with
  | nil => exact Or.inr rfl
  | cons a t =>
    cases t with
    | nil =>
      rw [stripTrail_single]
      by_cases ha : a = '-'
      · rw [if_pos ha]; exact Or.inr rfl
      · rw [if_neg ha]; exact Or.inl rfl
    | cons b t' =>
      rw [stripTrail_cons2]
      exact Or.inl rfl

theorem noDD_stripTrail {cs : List Char} (hdd : noDD cs = true) : noDD (stripTrail cs) = true := by
  induction cs with
  | nil => rfl
  | cons a t ih =>
    cases t with
    | nil =>
      rw [stripTrail_single]
      by_cases ha : a = '-'
      · rw [if_pos ha]; rfl
      · rw [if_neg ha]; rfl
    | cons b t' =>
      rw [stripTrail_cons2]
      have hdt := ih (noDD_tail hdd)
      refine noDD_cons hdt ?_
      intro ha
      subst ha
      have hb : b ≠ '-' := by
        intro he
        subst he
        simp [noDD] at hdd
      rcases stripTrail_head? (b :: t') with hh | hnil
      · rw [hh]
        simpa using hb
      · rw [hnil]
        simp

theorem stripTrail_getLast? {cs : List Char} (hdd : noDD cs = true) :
    (stripTrail cs).getLast? ≠ some '-' := by
  induction cs with
  | nil => simp [stripTrail]
  | cons a t ih =>
    cases t with
    | nil =>
      rw [stripTrail_single]
      by_cases ha : a = '-'
      · rw [if_pos ha]; simp
      · rw [if_neg ha]; simpa using ha
    | cons b t' =>
      rw [stripTrail_cons2]
      have hdt := ih (noDD_tail hdd)
      by_cases hnil : stripTrail (b :: t') = []
      · rw [hnil]
        have hbt : b :: t' = ['-'] := by
          cases t' with
          | nil =>
            rw [stripTrail_single] at hnil
            by_cases hb : b = '-'
            · rw [hb]
            · rw [if_neg hb] at hnil; simp at hnil
          | cons c t'' => rw [stripTrail_cons2] at hnil; simp at hnil
        have hb : b = '-' := by injection hbt
        subst hb
        have ha : a ≠ '-' := by
          intro he
          subst he
          simp [noDD] at hdd
        simpa using ha
      · obtain ⟨c, cs', hcc⟩ := List.exists_cons_of_ne_nil hnil
        rw [hcc, List.getLast?_cons_cons]
        rw [hcc] at hdt
        exact hdt

theorem stripLead_id {cs : List Char} (h : cs.head? ≠ some '-') : stripLead cs = cs := by
  cases cs with
  | nil => rfl
  | cons a t =>
    rw [stripLead_cons, if_neg]
    intro he
    exact h (by simp [he])

theorem stripTrail_id {cs : List Char} (h : cs.getLast? ≠ some '-') : stripTrail cs = cs := by
  induction cs with
  | nil => rfl
  | cons a t ih =>
    cases t with
    | nil =>
      rw [stripTrail_single, if_neg]
      intro he
      exact h (by simp [he])
    | cons b t' =>
      rw [stripTrail_cons2, ih]
      rwa [List.getLast?_cons_cons] at h

theorem jsToLower_slugChar {c : Char} (h : isSlugChar c = true) : jsToLower c = c := by
  have h' : lcAlnum c = true ∨ (c == '-') = true := by simpa [isSlugChar] using h
  rcases h' with h1 | h2
  · simp only [lcAlnum, Bool.or_eq_true, Bool.and_eq_true, decide_eq_true_eq] at h1
    unfold jsToLower
    rw [if_neg]
    omega
  · have : c = '-' := by simpa using h2
    subst this
    decide

theorem slugify_idem (s : String) : slugify (slugify s) = slugify s := by
  unfold slugify
  set x := collapseRuns false (s.data.map jsToLower) with hx
  have hxchars : ∀ c ∈ x, isSlugChar c = true := fun c hc => collapseRuns_mem hc
  have hxdd : noDD x = true := noDD_collapseRuns _ false
  set y := stripTrail (stripLead x) with hy
  have hychars : ∀ c ∈ y, isSlugChar c = true :=
    fun c hc => hxchars c (stripLead_mem (stripTrail_mem hc))
  have hydd : noDD y = true := noDD_stripTrail (noDD_stripLead hxdd)
  have hyhead : y.head? ≠ some '-' := by
    rcases stripTrail_head? (stripLead x) with hh | hnil
    · rw [hy, hh]
      exact stripLead_head? hxdd
    · rw [hy, hnil]
      simp
  have hylast : y.getLast? ≠ some '-' := stripTrail_getLast? (noDD_stripLead hxdd)
  have hdata : (String.mk y).data = y := rfl
  rw [hdata]
  have hmap : y.map jsToLower = y := by
    have hfix : ∀ c ∈ y, jsToLower c = c := fun c hc => jsToLower_slugChar (hychars c hc)
    calc y.map jsToLower = y.map id := List.map_congr_left hfix
    _ = y := List.map_id y
  rw [hmap]
  rw [(collapseRuns_fixed y hychars hydd).1]
  rw [stripLead_id hyhead]
  rw [stripTrail_id hylast]

/-! ## Claim theorems: slugify -/

/-- Claim C7: `slugify` is a pure total function on strings — equal names give
equal slugs, it is idempotent, and
`slugify "Claude Code Memory Plugin" = "claude-code-memory-plugin"`.
Totality is by construction (`slugify` is a total Lean function). -/
theorem slugify_pure_total_idempotent :
    (∀ s t : String, s = t → slugify s = slugify t) ∧
    (∀ s : String, slugify (slugify s) = slugify s) ∧
    slugify "Claude Code Memory Plugin" = "claude-code-memory-plugin" :=
  ⟨fun _ _ h => h ▸ rfl, slugify_idem, by decide⟩

/-! ## Claim theorems: extractor scenarios -/

/-- Claim C3: the four-line markdown digest of the end-to-end scenario
extracts exactly one `Tool` with name "Aider", slug "aider", install command
"pip install aider", the GitHub URL, and category `cli-tool`. -/
theorem extractTools_aider_scenario :
    extractTools "T" aiderContent =
      [{ name := "Aider", slug := "aider", description := "An AI pair programming CLI.",
         installCommand := some "pip install aider",
         githubUrl := some "https://github.com/paul-gauthier/aider",
         source := none, category := ToolCategory.cliTool, extractedAt := "T" }] := by
  decide

/-- A line that matches the bullet pattern cannot match the H3 pattern (its
first character is in `[\s•\-\*]`, never `#`). -/
theorem matchH3_eq_none_of_matchBullet (cs : List Char) (p : List Char × List Char)
    (h : matchBullet cs = some p) : matchH3 cs = none := by
  cases cs with
  | nil => simp [matchBullet, List.takeWhile, bulletLoop] at h
  | cons c rest =>
    have hc : isBulletClassChar c = true := by
      by_contra hnc
      have hnc' : isBulletClassChar c = false := by revert hnc; cases isBulletClassChar c <;> simp
      unfold matchBullet at h
      simp [List.takeWhile_cons, hnc', bulletLoop] at h
    have hch : ¬(c = '#') := by
      intro he
      subst he
      simp [isBulletClassChar, isWsChar] at hc
    show matchH3 (c :: rest) = none
    unfold matchH3
    split
    · rename_i heq
      injection heq with h1 _
      exact absurd h1 hch
    · rfl

/-- Claim C4: a bullet line whose bold name (lower-cased, first colon removed)
is a reserved metadata field never starts a new `Tool` and never terminates
the current accumulation — the scan step leaves the tools list and the
current tool unchanged and appends the line to the active block.  In
particular (second conjunct) the digest `c4content`, whose block contains
`- **GitHub:** https://github.com/x/y`, yields no tool named "GitHub" and
instead contributes that URL as the single extracted tool's `githubUrl`. -/
theorem bullet_metadata_line_not_boundary (nowIso : String) (st : ScanState)
    (line : List Char) (g1 g2 : List Char)
    (hb : matchBullet (jsTrimChars line) = some (g1, g2))
    (hres : metadataFields.contains (String.mk (removeFirstColon ((jsTrimChars g1).map jsToLower))) = true)
    (hcur : st.cur.isSome = true) :
    ((extractStep nowIso st line).tools = st.tools ∧
     (extractStep nowIso st line).cur = st.cur ∧
     (extractStep nowIso st line).block = st.block ++ [line]) ∧
    extractTools "T" c4content = [c4tool] := by
  have h3 := matchH3_eq_none_of_matchBullet _ _ hb
  refine ⟨?_, by decide⟩
  obtain ⟨d, hd⟩ := Option.isSome_iff_exists.mp hcur
  simp only [extractStep, h3, hb, hres, Bool.not_true]
  simp [collectLine, hd]

/-- Witness for claim C4 at a concrete state and line. -/
theorem bullet_metadata_line_not_boundary_witness :
    ((extractStep "T" c4state c4line).tools = c4state.tools ∧
     (extractStep "T" c4state c4line).cur = c4state.cur ∧
     (extractStep "T" c4state c4line).block = c4state.block ++ [c4line]) ∧
    extractTools "T" c4content = [c4tool] :=
  bullet_metadata_line_not_boundary "T" c4state c4line ("GitHub:".data)
    ("https://github.com/x/y".data) (by decide) (by decide) (by decide)

/-! ## Tool-name invariant (for claim C6) -/

theorem finalizeTool_name_ne (d : ToolDraft) (desc n : String) :
    (finalizeTool d desc n).name ≠ "" := by
  by_cases h : d.name = "" <;> simp [finalizeTool, h]

theorem saveTool_names (n : String) (st : ScanState)
    (h : ∀ t ∈ st.tools, t.name ≠ "") : ∀ t ∈ (saveTool n st).tools, t.name ≠ "" := by
  cases hc : st.cur with
  | none => simpa [saveTool, hc] using h
  | some d =>
    by_cases h0 : d.name = ""
    · simpa [saveTool, hc, h0] using h
    · simp only [saveTool, hc, h0, if_neg]
      intro t ht
      rcases List.mem_append.mp ht with hm | hm
      · exact h t hm
      · rcases List.mem_singleton.mp hm with he
        subst he
        exact finalizeTool_name_ne _ _ _

theorem collectLine_tools (st : ScanState) (line trimmed : List Char) :
    (collectLine st line trimmed).tools = st.tools := by
  cases hc : st.cur <;> simp [collectLine, hc]

theorem extractStep_names (n : String) (st : ScanState) (line : List Char)
    (h : ∀ t ∈ st.tools, t.name ≠ "") : ∀ t ∈ (extractStep n st line).tools, t.name ≠ "" := by
  simp only [extractStep]
  cases hm3 : matchH3 (jsTrimChars line) with
  | some p =>
    obtain ⟨g1, g2⟩ := p
    simpa using saveTool_names n st h
  | none =>
    cases hmb : matchBullet (jsTrimChars line) with
    | some p =>
      obtain ⟨g1, g2⟩ := p
      by_cases hres : (metadataFields.contains (String.mk (removeFirstColon ((jsTrimChars g1).map jsToLower)))) = true
      · simp only [hres, Bool.not_true, Bool.false_eq_true, if_false]
        rw [collectLine_tools]
        exact h
      · have hres' : (metadataFields.contains (String.mk (removeFirstColon ((jsTrimChars g1).map jsToLower)))) = false := by
          revert hres
          cases metadataFields.contains (String.mk (removeFirstColon ((jsTrimChars g1).map jsToLower))) <;> simp
        simp only [hres', Bool.not_false, if_true]
        simpa using saveTool_names n st h
    | none =>
      rw [collectLine_tools]
      exact h

theorem foldl_extractStep_names (n : String) (lines : List (List Char)) :
    ∀ (st : ScanState), (∀ t ∈ st.tools, t.name ≠ "") →
      ∀ t ∈ (lines.foldl (extractStep n) st).tools, t.name ≠ "" := by
  induction lines with
  | nil => intro st h; exact h
  | cons l ls ih =>
    intro st h
    exact ih _ (extractStep_names n st l h)

/-! ## Claim C6: counterexample and amended invariant -/

/-- Counterexample to claim C6 as stated: on the digest `### !!!` the
extractor produces exactly one tool, named "!!!", whose slug is the empty
string (`slugify "!!!" = ""`), so slug generation can yield `""`. -/
theorem extractTools_empty_slug_cex :
    (extractTools "T" "### !!!").map Tool.slug = [""] ∧
    (extractTools "T" "### !!!").map Tool.name = ["!!!"] ∧
    slugify "!!!" = "" := by
  decide

/-- Claim C6 (amended): every `Tool` returned by `extractTools` has a
non-empty name; `slugify` is total but returns `""` on names without
alphanumeric characters, and an empty draft name maps through `finalizeTool`
to name "Unknown" with slug fallback `slugify "unknown" = "unknown"`. -/
theorem extractTools_names_nonempty (nowIso content : String) :
    ((extractTools nowIso content).all (fun t => !(t.name == ""))) = true ∧
    (finalizeTool emptyDraft "" nowIso).name = "Unknown" ∧
    (finalizeTool emptyDraft "" nowIso).slug = "unknown" := by
  refine ⟨?_, rfl, rfl⟩
  rw [List.all_eq_true]
  intro t ht
  have hmem : ∀ t ∈ extractTools nowIso content, t.name ≠ "" := by
    unfold extractTools
    exact saveTool_names _ _ (foldl_extractStep_names nowIso _ _ (by simp))
  simpa using hmem t ht

/-! ## Timestamp-erasure invariance (for claim C8) -/

theorem finalizeTool_erase (d1 d2 : ToolDraft) (desc : String) (n1 n2 : String)
    (h : eraseDraftTime d1 = eraseDraftTime d2) :
    eraseExtractedAt (finalizeTool d1 desc n1) = eraseExtractedAt (finalizeTool d2 desc n2) := by
  cases d1
  cases d2
  simp only [eraseDraftTime, ToolDraft.mk.injEq] at h
  obtain ⟨hn, hs, hi, hg, hsrc, -⟩ := h
  subst hn hs hi hg hsrc
  simp [finalizeTool, eraseExtractedAt]

theorem saveTool_erase (n1 n2 : String) (s1 s2 : ScanState)
    (htools : s1.tools.map eraseExtractedAt = s2.tools.map eraseExtractedAt)
    (hcur : s1.cur.map eraseDraftTime = s2.cur.map eraseDraftTime)
    (hdesc : s1.desc = s2.desc) (hblock : s1.block = s2.block) :
    (saveTool n1 s1).tools.map eraseExtractedAt = (saveTool n2 s2).tools.map eraseExtractedAt ∧
    (saveTool n1 s1).cur.map eraseDraftTime = (saveTool n2 s2).cur.map eraseDraftTime ∧
    (saveTool n1 s1).desc = (saveTool n2 s2).desc ∧
    (saveTool n1 s1).block = (saveTool n2 s2).block := by
  cases s1 with
  | mk tools1 cur1 desc1 block1 =>
    cases s2 with
    | mk tools2 cur2 desc2 block2 =>
      simp only at htools hcur hdesc hblock
      subst hdesc hblock
      cases cur1 with
      | none =>
        cases cur2 with
        | none => exact ⟨htools, rfl, rfl, rfl⟩
        | some d2 => simp [Option.map] at hcur
      | some d1 =>
        cases cur2 with
        | none => simp [Option.map] at hcur
        | some d2 =>
          have hcur' : eraseDraftTime d1 = eraseDraftTime d2 := by
            simpa using hcur
          have hname : d1.name = d2.name := by
            have hcg := congrArg ToolDraft.name hcur'
            simpa [eraseDraftTime] using hcg
          simp only [saveTool]
          by_cases h0 : d1.name = ""
          · rw [if_pos h0, if_pos (hname ▸ h0)]
            exact ⟨htools, hcur, rfl, rfl⟩
          · rw [if_neg h0, if_neg (hname ▸ h0)]
            refine ⟨?_, hcur, rfl, rfl⟩
            simp only [List.map_append, htools, List.map_cons, List.map_nil]
            congr 1
            refine congrArg (fun x => [x]) ?_
            apply finalizeTool_erase
            cases d1
            cases d2
            simp only [eraseDraftTime, ToolDraft.mk.injEq] at hcur' ⊢
            obtain ⟨hn, hs, hi, hg, hsrc, -⟩ := hcur'
            subst hn hs hi hg hsrc
            simp

theorem collectLine_erase (line trimmed : List Char) (s1 s2 : ScanState)
    (htools : s1.tools.map eraseExtractedAt = s2.tools.map eraseExtractedAt)
    (hcur : s1.cur.map eraseDraftTime = s2.cur.map eraseDraftTime)
    (hdesc : s1.desc = s2.desc) (hblock : s1.block = s2.block) :
    (collectLine s1 line trimmed).tools.map eraseExtractedAt = (collectLine s2 line trimmed).tools.map eraseExtractedAt ∧
    (collectLine s1 line trimmed).cur.map eraseDraftTime = (collectLine s2 line trimmed).cur.map eraseDraftTime ∧
    (collectLine s1 line trimmed).desc = (collectLine s2 line trimmed).desc ∧
    (collectLine s1 line trimmed).block = (collectLine s2 line trimmed).block := by
  cases s1 with
  | mk tools1 cur1 desc1 block1 =>
    cases s2 with
    | mk tools2 cur2 desc2 block2 =>
      simp only at htools hcur hdesc hblock
      subst hdesc hblock
      cases cur1 with
      | none =>
        cases cur2 with
        | none => exact ⟨htools, rfl, rfl, rfl⟩
        | some d2 => simp [Option.map] at hcur
      | some d1 =>
        cases cur2 with
        | none => simp [Option.map] at hcur
        | some d2 => exact ⟨htools, hcur, rfl, rfl⟩

theorem extractStep_erase (n1 n2 : String) (line : List Char) (s1 s2 : ScanState)
    (htools : s1.tools.map eraseExtractedAt = s2.tools.map eraseExtractedAt)
    (hcur : s1.cur.map eraseDraftTime = s2.cur.map eraseDraftTime)
    (hdesc : s1.desc = s2.desc) (hblock : s1.block = s2.block) :
    (extractStep n1 s1 line).tools.map eraseExtractedAt = (extractStep n2 s2 line).tools.map eraseExtractedAt ∧
    (extractStep n1 s1 line).cur.map eraseDraftTime = (extractStep n2 s2 line).cur.map eraseDraftTime ∧
    (extractStep n1 s1 line).desc = (extractStep n2 s2 line).desc ∧
    (extractStep n1 s1 line).block = (extractStep n2 s2 line).block := by
  have hsave := saveTool_erase n1 n2 s1 s2 htools hcur hdesc hblock
  simp only [extractStep]
  cases hm3 : matchH3 (jsTrimChars line) with
  | some p =>
    obtain ⟨g1, g2⟩ := p
    exact ⟨hsave.1, by simp [eraseDraftTime], rfl, rfl⟩
  | none =>
    cases hmb : matchBullet (jsTrimChars line) with
    | some p =>
      obtain ⟨g1, g2⟩ := p
      by_cases hres : (metadataFields.contains (String.mk (removeFirstColon ((jsTrimChars g1).map jsToLower)))) = true
      · simp only [hres, Bool.not_true, Bool.false_eq_true, if_false]
        exact collectLine_erase line _ s1 s2 htools hcur hdesc hblock
      · have hres' : (metadataFields.contains (String.mk (removeFirstColon ((jsTrimChars g1).map jsToLower)))) = false := by
          revert hres
          cases metadataFields.contains (String.mk (removeFirstColon ((jsTrimChars g1).map jsToLower))) <;> simp
        simp only [hres', Bool.not_false, if_true]
        refine ⟨hsave.1, ?_, ?_, ?_⟩ <;> simp [eraseDraftTime]
    | none =>
      exact collectLine_erase line _ s1 s2 htools hcur hdesc hblock

theorem foldl_extractStep_erase (n1 n2 : String) (lines : List (List Char)) :
    ∀ (s1 s2 : ScanState),
    s1.tools.map eraseExtractedAt = s2.tools.map eraseExtractedAt →
    s1.cur.map eraseDraftTime = s2.cur.map eraseDraftTime →
    s1.desc = s2.desc → s1.block = s2.block →
    (lines.foldl (extractStep n1) s1).tools.map eraseExtractedAt =
      (lines.foldl (extractStep n2) s2).tools.map eraseExtractedAt ∧
    (lines.foldl (extractStep n1) s1).cur.map eraseDraftTime =
      (lines.foldl (extractStep n2) s2).cur.map eraseDraftTime ∧
    (lines.foldl (extractStep n1) s1).desc = (lines.foldl (extractStep n2) s2).desc ∧
    (lines.foldl (extractStep n1) s1).block = (lines.foldl (extractStep n2) s2).block := by
  induction lines with
  | nil => intro s1 s2 h1 h2 h3 h4; exact ⟨h1, h2, h3, h4⟩
  | cons l ls ih =>
    intro s1 s2 h1 h2 h3 h4
    have hstep := extractStep_erase n1 n2 l s1 s2 h1 h2 h3 h4
    exact ih _ _ hstep.1 hstep.2.1 hstep.2.2.1 hstep.2.2.2

/-! ## Claim C8: counterexample and amended determinism -/

/-- Counterexample to claim C8 as stated: two runs of `extractTools` on the
same text at different run timestamps yield Tool lists that are not
byte-identical — the `extractedAt` timestamp field differs. -/
theorem extractTools_timestamp_cex :
    extractTools "2025-01-01T00:00:00.000Z" aiderContent ≠
      extractTools "2025-01-02T00:00:00.000Z" aiderContent := by
  decide

/-- Claim C8 (amended): re-running extraction on the same text is
deterministic up to the `extractedAt` timestamp: erasing that field yields
identical Tool lists for any two run timestamps (`extractNews` takes no
timestamp at all, so its result is byte-identical by construction). -/
theorem extractTools_deterministic_up_to_timestamp (n1 n2 : String) (content : String) :
    (extractTools n1 content).map eraseExtractedAt = (extractTools n2 content).map eraseExtractedAt := by
  unfold extractTools
  have h := foldl_extractStep_erase n1 n2 (splitOnChar '\n' content.data)
    { tools := [], cur := none, desc := [], block := [] }
    { tools := [], cur := none, desc := [], block := [] } rfl rfl rfl rfl
  exact (saveTool_erase n1 n2 _ _ h.1 h.2.1 h.2.2.1 h.2.2.2).1

/-! ## News filtering lemmas (for claim C10) -/

theorem news_filterMap_summaries (l : List String) :
    ((l.filterMap (fun text =>
        if 20 < text.length then
          some { headline := newsHeadline text, summary := text, source := none }
        else (none : Option NewsItem))).map NewsItem.summary) =
      l.filter (fun t => 20 < t.length) := by
  induction l with
  | nil => rfl
  | cons a t ih =>
    by_cases h : 20 < a.length
    · simp [List.filterMap_cons, List.filter_cons, h, ih]
    · simp [List.filterMap_cons, List.filter_cons, h, ih]

theorem news_filterMap_items (l : List String) :
    ((l.filterMap (fun text =>
        if 20 < text.length then
          some { headline := newsHeadline text, summary := text, source := none }
        else (none : Option NewsItem))).all (fun item =>
      decide (20 < item.summary.length) && (item.headline == newsHeadline item.summary)
        && (item.source == none))) = true := by
  induction l with
  | nil => rfl
  | cons a t ih =>
    by_cases h : 20 < a.length
    · simp [List.filterMap_cons, h, ih]
    · simp [List.filterMap_cons, h, ih]

/-! ## Claim C10: counterexample and amended filter rule -/

/-- Counterexample to claim C10 as stated: the Key News section of
`newsLen20Content` has exactly one bullet whose trimmed text has length
exactly 20, yet `extractNews` discards it (the source keeps only
`text.length > 20`), so a bullet of length 20 does not become a `NewsItem`. -/
theorem extractNews_len20_cex :
    newsBulletsOf newsLen20Content = ["aaaaaaaaaaaaaaaaaaaa"] ∧
    ("aaaaaaaaaaaaaaaaaaaa" : String).length = 20 ∧
    extractNews newsLen20Content = [] := by
  decide

/-- Claim C10 (amended): a bullet of the Key News section is discarded
exactly when its trimmed text is 20 characters or shorter; the summaries of
the produced items are exactly the bullet texts longer than 20 characters,
in order, and every item's headline is the text before the first colon (or
the 50-character prefix when that is empty) with the full text as summary. -/
theorem extractNews_bullets_filtered (content : String) :
    (extractNews content).map NewsItem.summary =
      (newsBulletsOf content).filter (fun t => 20 < t.length) ∧
    ((extractNews content).all (fun item =>
      decide (20 < item.summary.length) && (item.headline == newsHeadline item.summary)
        && (item.source == none))) = true := by
  unfold extractNews newsBulletsOf
  cases hn : findNewsSection content.data with
  | none => simp
  | some sec => exact ⟨news_filterMap_summaries _, news_filterMap_items _⟩
